import Mathlib

/-!
# Vuvuzela coordinator: round lifecycle

A shallow embedding of `coordinator/server.go`.  The server's mutable fields
are an explicit record, the goroutines (the driver `loop`, the `incomingOnion`
handler, `Close`) are atomic steps of one interleaved machine, and every
network effect is appended to a trace.  The mutex `srv.mu` makes each critical
section one atomic step; logging is not recorded.
-/

namespace Coordinator

/-! ## Data model -/

/-- A `typesocket.Conn`, identified by a number. -/
abbrev Conn := Nat

/-- A Go `[]byte`. -/
abbrev Bytes := List Nat

/-- Number of values of a Go `uint32`. -/
def U32 : Nat := 4294967296

/-- The `onion` struct: a payload and the connection that sent it. -/
structure onion where
  sender : Conn
  data : Bytes
deriving DecidableEq, Repr

/-- The `OnionMsg` struct. -/
structure OnionMsg where
  Round : Nat
  Onion : Bytes
deriving DecidableEq, Repr

/-- The `NewRound` struct. -/
structure NewRound where
  Round : Nat
  ConfigHash : String
deriving DecidableEq, Repr

/-- Modelled from the spec: `mixnet.RoundSettings`, whose declaration is not in
the sources at hand; it "identifies the target mixing service and the round
number", the two fields the loop fills in. -/
structure RoundSettings where
  Service : String
  Round : Nat
deriving DecidableEq, Repr

/-- The `MixRound` struct; `EndTime` is a time stamp in ticks. -/
structure MixRound where
  MixSettings : RoundSettings
  MixSignatures : List Bytes
  EndTime : Nat
deriving DecidableEq, Repr

/-- The `RoundError` struct. -/
structure RoundError where
  Round : Nat
  Err : String
deriving DecidableEq, Repr

/-- The values sent over a connection or broadcast by the hub. -/
inductive Payload where
  | onionMsg (v : OnionMsg)
  | newRound (v : NewRound)
  | mixRound (v : MixRound)
  | roundError (v : RoundError)
deriving DecidableEq, Repr

/-- Effects of the coordinator on its collaborators. -/
inductive Event where
  /-- `c.Send(topic, v)` -/
  | send (c : Conn) (topic : String) (v : Payload)
  /-- `srv.hub.Broadcast(topic, v)` -/
  | broadcast (topic : String) (v : Payload)
  /-- `srv.mixnetClient.NewRound(ctx, servers, &settings)` -/
  | newRoundCall (servers : List Nat) (settings : RoundSettings)
  /-- `srv.mixnetClient.RunRound(ctx, firstServer, service, round, onions)` -/
  | runRoundCall (firstServer : Nat) (service : String) (round : Nat) (onions : List Bytes)
  /-- `go srv.runRound(ctx, firstServer, round, out)` -/
  | goRunRound (firstServer : Nat) (round : Nat) (out : List onion)
deriving DecidableEq, Repr

/-- Non-nil `error` values returned by `Run` and `Close`. -/
inductive Error where
  /-- `errors.New("no persist path specified")` -/
  | noPersistPath
  /-- `ErrServerClosed` -/
  | ErrServerClosed
deriving DecidableEq, Repr

/-- Go run-time panics the modelled code can raise. -/
inductive Panic where
  | closeOfNilChannel
  | closeOfClosedChannel
  | indexOutOfRange
deriving DecidableEq, Repr

/-- The `Server` struct.  `shutdown` is the channel `srv.shutdown`: `none` is the
nil channel of a server on which `Run` never made one, `some false` an open
channel, `some true` a closed one.  `latestMixRound` is a pointer, `none` for
nil.  The collaborators `hub`, `configServer`, `mixnetClient` are not state. -/
structure Server where
  Service : String
  MixWait : Nat
  RoundWait : Nat
  PersistPath : String
  ConfigServerPersistPath : String
  round : Nat
  onions : List onion
  closed : Bool
  shutdown : Option Bool
  latestMixRound : Option MixRound
deriving DecidableEq, Repr

/-! ## Sequential operations -/

/-- The method `Server.Run`: refuses an empty `PersistPath`, otherwise resets the intake
batch, the `closed` flag and the shutdown channel; the caller then starts
`loop` as a goroutine. -/
def Run (srv : Server) : Server × Option Error :=
  if srv.PersistPath = "" then
    (srv, some Error.noPersistPath)
  else
    ({ srv with onions := [], closed := false, shutdown := some false }, none)

/-- The method `Server.Close`, with the run-time behaviour of `close` on a channel. -/
def Close (srv : Server) : Except Panic (Server × Option Error) :=
  if !srv.closed then
    match srv.shutdown with
    | none => Except.error Panic.closeOfNilChannel
    | some true => Except.error Panic.closeOfClosedChannel
    | some false => Except.ok ({ srv with shutdown := some true, closed := true }, none)
  else
    Except.ok (srv, some Error.ErrServerClosed)

/-- The string `fmt.Sprintf("wrong round (want %d)", round)`. -/
def wrongRoundText (round : Nat) : String :=
  "wrong round (want " ++ toString round ++ ")"

/-- The method `Server.onConnect`: sends the latest mix announcement, if there is one. -/
def onConnect (srv : Server) (c : Conn) : List Event :=
  match srv.latestMixRound with
  | some mixRound => [Event.send c "mix" (Payload.mixRound mixRound)]
  | none => []

/-- The method `Server.incomingOnion`: the new server state and the messages sent.  The
round is read once, under the lock; the notice is sent after the unlock. -/
def incomingOnion (srv : Server) (c : Conn) (o : OnionMsg) : Server × List Event :=
  let round := srv.round
  let srv1 :=
    if o.Round = round then
      { srv with onions := srv.onions ++ [{ sender := c, data := o.Onion }] }
    else srv
  let sent :=
    if o.Round ≠ round then
      [Event.send c "error"
        (Payload.roundError { Round := o.Round, Err := wrongRoundText round })]
    else []
  (srv1, sent)

/-- The method `Server.sleep`: a `select` between the shutdown channel and the timer.
`timerFired` says whether the timer channel is ready, `pickShutdown` is the
choice `select` makes when both are ready.  `none`: still blocked. -/
def sleep (shutdown : Option Bool) (timerFired pickShutdown : Bool) : Option Bool :=
  match shutdown, timerFired with
  | some true, false => some false
  | some true, true => some (!pickShutdown)
  | _, true => some true
  | _, false => none

/-! ## Reply dispatch -/

/-- The order in which the workers of `concurrency.ParallelFor` complete the
indices still waiting in `rest`: each pick selects one of them. -/
def pickOrder : List Nat → List Nat → List Nat
  | [], rest => rest
  | p :: ps, rest =>
    match rest.drop (p % rest.length) with
    | [] => rest
    | i :: _ =>
      i :: pickOrder ps (rest.take (p % rest.length) ++ (rest.drop (p % rest.length)).tail)

/-- Runs the loop body once per index, in the given order; a panic stops everything. -/
def runBodies (body : Nat → Except Panic (List Event)) : List Nat → Except Panic (List Event)
  | [] => Except.ok []
  | i :: rest =>
    match body i with
    | Except.error p => Except.error p
    | Except.ok ev =>
      match runBodies body rest with
      | Except.error p => Except.error p
      | Except.ok evs => Except.ok (ev ++ evs)

/-- The call `concurrency.ParallelFor(n, ...)` with a body that handles every index
it obtains from `p.Next()`: each index below `n` is handled once, in an order
fixed by the scheduler (`picks`). -/
def ParallelFor (picks : List Nat) (n : Nat) (body : Nat → Except Panic (List Event)) :
    Except Panic (List Event) :=
  runBodies body (pickOrder picks (List.range n))

/-- The body of the dispatch loop: `senders[i].Send("reply", OnionMsg{round, replies[i]})`. -/
def sendReply (senders : List Conn) (replies : List Bytes) (round : Nat) (i : Nat) :
    Except Panic (List Event) :=
  match senders[i]?, replies[i]? with
  | some c, some r =>
    Except.ok [Event.send c "reply" (Payload.onionMsg { Round := round, Onion := r })]
  | _, _ => Except.error Panic.indexOutOfRange

/-- The method `Server.runRound`.  `rpc` is what `mixnetClient.RunRound` returns (`none` for an
error), `picks` the scheduling of the dispatch workers. -/
def runRound (srv : Server) (rpc : Option (List Bytes)) (picks : List Nat)
    (firstServer : Nat) (round : Nat) (out : List onion) : Except Panic (List Event) :=
  let onions := out.map (fun o => o.data)
  let senders := out.map (fun o => o.sender)
  let call := Event.runRoundCall firstServer srv.Service round onions
  match rpc with
  | none =>
    Except.ok [call, Event.broadcast "error"
      (Payload.roundError { Round := round, Err := "server error" })]
  | some replies =>
    match ParallelFor picks replies.length (sendReply senders replies round) with
    | Except.error p => Except.error p
    | Except.ok evs => Except.ok (call :: evs)

/-! ## The interleaved machine -/

/-- Program points of the goroutine running `Server.loop`. -/
inductive Phase where
  /-- at the head of the `for` body -/
  | top
  /-- past the first critical section, about to broadcast "newround" -/
  | announce
  /-- inside `time.Sleep(500 * time.Millisecond)` -/
  | delay
  /-- about to call `mixnetClient.NewRound` -/
  | negotiate
  /-- inside `srv.sleep(10 * time.Second)` after a failed negotiation -/
  | backoff
  /-- about to store `latestMixRound` under the lock -/
  | store
  /-- about to broadcast "mix" -/
  | announceMix
  /-- inside `srv.sleep(srv.MixWait)` -/
  | mixWindow
  /-- about to hand the batch to `runRound` under the lock -/
  | drain
  /-- inside `srv.sleep(srv.RoundWait)` -/
  | roundWait
  /-- the loop was left by a `break` -/
  | done
  /-- a goroutine panicked: the process is gone -/
  | panicked
deriving DecidableEq, Repr

/-- What the environment decides for one step of the loop. -/
structure Oracle where
  /-- second result of `srv.configServer.CurrentConfig()` -/
  configHash : String
  /-- the `MixServers` of the current configuration -/
  mixServers : List Nat
  /-- whether `srv.persistLocked()` returns an error -/
  persistErr : Bool
  /-- result of `mixnetClient.NewRound`: the signatures, `none` for an error -/
  newRoundResult : Option (List Bytes)
  /-- value of `time.Now()` -/
  now : Nat
  /-- whether the timer of the current wait has fired -/
  timerFired : Bool
  /-- what `select` picks when shutdown and timer are both ready -/
  pickShutdown : Bool
deriving DecidableEq, Repr

/-- Local variables of `Server.loop` that live across program points. -/
structure Locals where
  round : Nat
  configHash : String
  mixServers : List Nat
  mixRound : MixRound
deriving DecidableEq, Repr

/-- The coordinator process: shared state, the loop's program point and locals,
and the effects so far. -/
structure Machine where
  srv : Server
  pc : Phase
  loc : Locals
  trace : List Event
deriving DecidableEq, Repr

/-- Where the loop goes when a `srv.sleep` returns: `false` breaks, `true` goes on. -/
def afterSleep (m : Machine) (x : Oracle) (next : Phase) : Machine :=
  match sleep m.srv.shutdown x.timerFired x.pickShutdown with
  | none => m
  | some false => { m with pc := Phase.done }
  | some true => { m with pc := next }

/-- One atomic step of `Server.loop`.  The configuration read at the head of the body is
taken to deliver the hash and the list of mix servers; the critical sections are single
steps, and so is each broadcast and each call to the mix chain.  `NewRound` gets a pointer
to the settings and is taken to leave `Service` and `Round` as the loop set them.
`time.Sleep` returns when its timer has fired and does not look at `srv.shutdown`;
`mixServers[0]` panics on an empty list. -/
def loopStep (x : Oracle) (m : Machine) : Machine :=
  match m.pc with
  | Phase.top =>
    let round := (m.srv.round + 1) % U32
    let srv := { m.srv with round := round }
    let loc : Locals :=
      { round := round, configHash := x.configHash, mixServers := x.mixServers,
        mixRound := m.loc.mixRound }
    if x.persistErr then
      { m with srv := srv, loc := loc, pc := Phase.done }
    else
      { m with srv := srv, loc := loc, pc := Phase.announce }
  | Phase.announce =>
    { m with
      trace := m.trace ++ [Event.broadcast "newround"
        (Payload.newRound { Round := m.loc.round, ConfigHash := m.loc.configHash })],
      pc := Phase.delay }
  | Phase.delay =>
    if x.timerFired then { m with pc := Phase.negotiate } else m
  | Phase.negotiate =>
    let mixSettings : RoundSettings := { Service := "Convo", Round := m.loc.round }
    let trace := m.trace ++ [Event.newRoundCall m.loc.mixServers mixSettings]
    match x.newRoundResult with
    | none => { m with trace := trace, pc := Phase.backoff }
    | some mixSigs =>
      let mixRound : MixRound :=
        { MixSettings := mixSettings, MixSignatures := mixSigs,
          EndTime := x.now + m.srv.MixWait }
      { m with trace := trace, loc := { m.loc with mixRound := mixRound }, pc := Phase.store }
  | Phase.backoff => afterSleep m x Phase.top
  | Phase.store =>
    { m with srv := { m.srv with latestMixRound := some m.loc.mixRound },
             pc := Phase.announceMix }
  | Phase.announceMix =>
    { m with
      trace := m.trace ++ [Event.broadcast "mix" (Payload.mixRound m.loc.mixRound)],
      pc := Phase.mixWindow }
  | Phase.mixWindow => afterSleep m x Phase.drain
  | Phase.drain =>
    match m.loc.mixServers with
    | [] => { m with pc := Phase.panicked }
    | firstServer :: _ =>
      { m with
        trace := m.trace ++ [Event.goRunRound firstServer m.loc.round m.srv.onions],
        srv := { m.srv with onions := [] },
        pc := Phase.roundWait }
  | Phase.roundWait => afterSleep m x Phase.top
  | Phase.done => m
  | Phase.panicked => m

/-- What can happen next in the process once `Run` has started it; a further call of
`Run` is not among the steps. -/
inductive Action where
  /-- the hub delivers an "onion" message from `c` -/
  | submit (c : Conn) (o : OnionMsg)
  /-- `onConnect` runs for connection `c` (the `Run` at hand does not register it with the
  hub; the step only adds behaviours) -/
  | connect (c : Conn)
  /-- somebody calls `Close` -/
  | close
  /-- the loop goroutine takes its next step -/
  | loop (x : Oracle)
deriving DecidableEq, Repr

/-- One step of the process. -/
def step (m : Machine) (a : Action) : Machine :=
  if m.pc = Phase.panicked then m
  else
    match a with
    | Action.submit c o =>
      { m with srv := (incomingOnion m.srv c o).1, trace := m.trace ++ (incomingOnion m.srv c o).2 }
    | Action.connect c => { m with trace := m.trace ++ onConnect m.srv c }
    | Action.close =>
      match Close m.srv with
      | Except.ok r => { m with srv := r.1 }
      | Except.error _ => { m with pc := Phase.panicked }
    | Action.loop x => loopStep x m

/-- An execution: the actions are taken one after the other. -/
def run (m : Machine) (acts : List Action) : Machine :=
  acts.foldl step m

/-- The zero value of the loop's locals. -/
def Locals.zero : Locals :=
  { round := 0, configHash := "", mixServers := [],
    mixRound := { MixSettings := { Service := "", Round := 0 }, MixSignatures := [], EndTime := 0 } }

/-- The process right after a `Run` that returned nil: the loop is at its head. -/
def boot (s : Server) : Machine :=
  { srv := (Run s).1, pc := Phase.top, loc := Locals.zero, trace := [] }

/-! ## Histories of an execution -/

/-- Whether the step changes `srv.round`, as 0 or 1. -/
def bumps (m : Machine) (a : Action) : Nat :=
  if (step m a).srv.round = m.srv.round then 0 else 1

/-- Number of changes of `srv.round` along an execution. -/
def epochs : Machine → List Action → Nat
  | _, [] => 0
  | m, a :: rest => bumps m a + epochs (step m a) rest

/-- An accepted submission: the number of round changes before it, its round tag,
and the element appended to `srv.onions`. -/
structure Accepted where
  epoch : Nat
  tag : Nat
  item : onion
deriving DecidableEq, Repr

/-- A batch handed to `runRound`: the number of round changes before the hand-off,
the round argument, and the batch. -/
structure Drained where
  epoch : Nat
  round : Nat
  batch : List onion
deriving DecidableEq, Repr

/-- The hand-offs recorded in a trace: round argument and batch. -/
def spawned : List Event → List (Nat × List onion)
  | [] => []
  | Event.goRunRound _ round out :: rest => (round, out) :: spawned rest
  | _ :: rest => spawned rest

/-- The broadcasts recorded in a trace. -/
def broadcasts : List Event → List (String × Payload)
  | [] => []
  | Event.broadcast topic v :: rest => (topic, v) :: broadcasts rest
  | _ :: rest => broadcasts rest

/-- The submissions a step accepts: a delivery after which `srv.onions` has grown
by the delivered onion. -/
def acceptedAt (e : Nat) (m : Machine) : Action → List Accepted
  | Action.submit c o =>
    if (step m (Action.submit c o)).srv.onions = m.srv.onions ++ [{ sender := c, data := o.Onion }]
    then [{ epoch := e, tag := o.Round, item := { sender := c, data := o.Onion } }]
    else []
  | _ => []

/-- The batches a step hands to `runRound`, read off the growth of the trace. -/
def drainedAt (e : Nat) (m : Machine) (a : Action) : List Drained :=
  (spawned ((step m a).trace.drop m.trace.length)).map
    (fun p => { epoch := e, round := p.1, batch := p.2 })

/-- All accepted submissions of an execution, in order; `e` counts round changes. -/
def acceptedLog : Nat → Machine → List Action → List Accepted
  | _, _, [] => []
  | e, m, a :: rest => acceptedAt e m a ++ acceptedLog (e + bumps m a) (step m a) rest

/-- All hand-offs of an execution, in order; `e` counts round changes. -/
def drainLog : Nat → Machine → List Action → List Drained
  | _, _, [] => []
  | e, m, a :: rest => drainedAt e m a ++ drainLog (e + bumps m a) (step m a) rest

/-! ## Auxiliary definitions, concrete servers and executions -/

/-- A server value as the program builds it before `Run`: no persist path, no channel yet. -/
def unstarted : Server :=
  { Service := "Convo", MixWait := 5, RoundWait := 2, PersistPath := "",
    ConfigServerPersistPath := "", round := 0, onions := [], closed := false,
    shutdown := none, latestMixRound := none }

/-- A server value ready for `Run`. -/
def fresh : Server :=
  { Service := "Convo", MixWait := 5, RoundWait := 2, PersistPath := "state",
    ConfigServerPersistPath := "", round := 0, onions := [], closed := false,
    shutdown := none, latestMixRound := none }

/-- The server `fresh` after `Run` and one `Close`. -/
def stopped : Server :=
  { fresh with closed := true, shutdown := some true }

/-- The process after a `Close` that returned nil. -/
def closedNow (m : Machine) : Machine :=
  { m with srv := { m.srv with shutdown := some true, closed := true } }

/-- An environment in which nothing goes wrong: persistence and negotiation succeed and
every timer fires before shutdown is looked at. -/
def quietOracle : Oracle :=
  { configHash := "cfg", mixServers := [10, 11], persistErr := false,
    newRoundResult := some [[1], [2]], now := 100, timerFired := true, pickShutdown := false }

/-- The reply that position `i` of a batch gets. -/
def replyEvent (out : List onion) (replies : List Bytes) (round : Nat) (i : Nat) : Event :=
  Event.send ((out.map (fun o => o.sender)).getD i 0) "reply"
    (Payload.onionMsg { Round := round, Onion := replies.getD i [] })

/-- Whether an event is a send to connection `c`. -/
def sentTo (c : Conn) : Event → Bool
  | Event.send c1 _ _ => c1 = c
  | _ => false

/-- Program points at which the loop holds the round number of its iteration in `round`. -/
def inRound : Phase → Bool
  | Phase.top => false
  | Phase.done => false
  | Phase.panicked => false
  | _ => true

/-- The loop goroutine takes `n` steps in the quiet environment. -/
def turns (n : Nat) : List Action :=
  List.replicate n (Action.loop quietOracle)

/-- Round 1 from the head of the loop to its hand-off; connection 5 submits an onion
tagged 1 during the mix window. -/
def roundOne : List Action :=
  turns 6 ++ [Action.submit 5 { Round := 1, Onion := [1] }] ++ turns 2

/-- After the hand-off of round 1 connection 6 submits an onion tagged 1, during the wait
between the rounds; then round 2 runs up to its hand-off. -/
def lateOnion : List Action :=
  roundOne ++ [Action.submit 6 { Round := 1, Onion := [2] }] ++ turns 9

/-- `Close` is called while the loop is in `time.Sleep` after the "newround" broadcast;
the loop then goes on until it broadcasts "mix". -/
def shutdownInDelay : List Action :=
  turns 2 ++ [Action.close] ++ turns 4

/-- An environment in which negotiation fails. -/
def failingOracle : Oracle :=
  { quietOracle with newRoundResult := none }

/-- One iteration of the loop from its head to the call of `NewRound`, all decided by `x`. -/
def attempt (x : Oracle) : List Action :=
  [Action.loop x, Action.loop x, Action.loop x, Action.loop x]

/-- An iteration whose negotiation fails: the attempt and the back-off wait. -/
def failedAttempt (x : Oracle) : List Action :=
  attempt x ++ [Action.loop x]

/-- An iteration whose negotiation succeeds, up to the "mix" broadcast. -/
def goodAttempt (x : Oracle) : List Action :=
  attempt x ++ [Action.loop x, Action.loop x]

/-- One failed iteration per environment of the list, one after the other. -/
def retries : List Oracle → List Action
  | [] => []
  | x :: rest => failedAttempt x ++ retries rest

/-- The round numbers of the "newround" broadcasts of a trace. -/
def announcedRounds : List Event → List Nat
  | [] => []
  | Event.broadcast _ (Payload.newRound v) :: rest => v.Round :: announcedRounds rest
  | _ :: rest => announcedRounds rest

/-- The round numbers of the `RoundSettings` passed to `NewRound` in a trace. -/
def negotiatedRounds : List Event → List Nat
  | [] => []
  | Event.newRoundCall _ settings :: rest => settings.Round :: negotiatedRounds rest
  | _ :: rest => negotiatedRounds rest

/-- What the environment must do in an iteration the loop gets through to `NewRound`:
persistence succeeds and the timers fire. -/
abbrev proceeds (x : Oracle) : Prop :=
  x.persistErr = false ∧ x.timerFired = true

/-- The hand-offs of an execution, each with the submissions accepted since the hand-off
before it (or since the start); `pend` holds the submissions accepted and not yet handed
over, `e` counts round changes. -/
def segments : Nat → List Accepted → Machine → List Action → List (Drained × List Accepted)
  | _, _, _, [] => []
  | e, pend, m, a :: rest =>
    match drainedAt e m a with
    | [] => segments (e + bumps m a) (pend ++ acceptedAt e m a) (step m a) rest
    | d :: _ =>
      (d, pend ++ acceptedAt e m a) :: segments (e + bumps m a) [] (step m a) rest

/-- The submissions accepted after the last hand-off of an execution. -/
def pending : Nat → List Accepted → Machine → List Action → List Accepted
  | _, pend, _, [] => pend
  | e, pend, m, a :: rest =>
    match drainedAt e m a with
    | [] => pending (e + bumps m a) (pend ++ acceptedAt e m a) (step m a) rest
    | _ :: _ => pending (e + bumps m a) [] (step m a) rest



/-! ## Facts about single steps -/

theorem afterSleep_srv (m : Machine) (x : Oracle) (next : Phase) :
    (afterSleep m x next).srv = m.srv := by
  unfold afterSleep; split <;> rfl

theorem afterSleep_trace (m : Machine) (x : Oracle) (next : Phase) :
    (afterSleep m x next).trace = m.trace := by
  unfold afterSleep; split <;> rfl

theorem afterSleep_loc (m : Machine) (x : Oracle) (next : Phase) :
    (afterSleep m x next).loc = m.loc := by
  unfold afterSleep; split <;> rfl

theorem afterSleep_pc (m : Machine) (x : Oracle) (next : Phase) :
    (afterSleep m x next).pc = m.pc ∨ (afterSleep m x next).pc = Phase.done ∨
      (afterSleep m x next).pc = next := by
  unfold afterSleep; split <;> simp

theorem U32_pos : 1 < U32 := by decide

theorem succ_mod_ne (r : Nat) : (r + 1) % U32 ≠ r := by
  unfold U32 at *
  omega

theorem Close_ok (s : Server) (r : Server × Option Error) (h : Close s = Except.ok r) :
    r.1 = s ∨ r.1 = { s with shutdown := some true, closed := true } := by
  unfold Close at h
  split at h
  · split at h
    · cases h
    · cases h
    · cases h; exact Or.inr rfl
  · cases h; exact Or.inl rfl

/-- The step `Close` changes neither the counter, nor the batch, nor the trace. -/
theorem step_close_keeps (m : Machine) :
    (step m Action.close).srv.round = m.srv.round ∧
      (step m Action.close).srv.onions = m.srv.onions ∧
      (step m Action.close).trace = m.trace ∧
      (step m Action.close).loc = m.loc := by
  by_cases hq : m.pc = Phase.panicked
  · simp [step, hq]
  · simp only [step, hq, if_false]
    split
    · rename_i r hr
      rcases Close_ok _ _ hr with h | h <;> simp [h]
    · simp

theorem step_panicked (m : Machine) (a : Action) (h : m.pc = Phase.panicked) : step m a = m := by
  simp [step, h]

theorem step_loop (m : Machine) (x : Oracle) : step m (Action.loop x) = loopStep x m := by
  by_cases h : m.pc = Phase.panicked
  · simp [step, h, loopStep]
  · simp [step, h]

/-- A step other than `Close` leaves the `closed` flag and the shutdown channel alone. -/
theorem step_keeps_shutdown (m : Machine) (a : Action) (h : a ≠ Action.close) :
    (step m a).srv.closed = m.srv.closed ∧ (step m a).srv.shutdown = m.srv.shutdown := by
  by_cases hp : m.pc = Phase.panicked
  · simp [step, hp]
  · cases a with
    | submit c o =>
      simp only [step, hp, if_false, incomingOnion]
      split <;> simp
    | connect c => simp [step, hp]
    | close => exact absurd rfl h
    | loop x =>
      simp only [step, hp, if_false, loopStep]
      split <;> (try split) <;> simp [afterSleep_srv]

theorem run_keeps_shutdown (acts : List Action) (m : Machine) (h : Action.close ∉ acts) :
    (run m acts).srv.closed = m.srv.closed ∧ (run m acts).srv.shutdown = m.srv.shutdown := by
  induction acts generalizing m with
  | nil => simp [run]
  | cons a rest ih =>
    have ha : a ≠ Action.close := fun e => h (by simp [e])
    have hr : Action.close ∉ rest := fun e => h (by simp [e])
    have h1 := step_keeps_shutdown m a ha
    have h2 := ih (step m a) hr
    simp only [run, List.foldl_cons] at h2 ⊢
    exact ⟨h2.1.trans h1.1, h2.2.trans h1.2⟩

/-- Once `closed` is set, no step clears it or changes the channel. -/
theorem step_stays_closed (m : Machine) (a : Action) (h : m.srv.closed = true) :
    (step m a).srv.closed = true ∧ (step m a).srv.shutdown = m.srv.shutdown := by
  by_cases hc : a = Action.close
  · subst hc
    by_cases hp : m.pc = Phase.panicked
    · simp [step, hp, h]
    · simp [step, hp, Close, h]
  · have := step_keeps_shutdown m a hc
    exact ⟨this.1.trans h, this.2⟩

theorem run_stays_closed (acts : List Action) (m : Machine) (h : m.srv.closed = true) :
    (run m acts).srv.closed = true ∧ (run m acts).srv.shutdown = m.srv.shutdown := by
  induction acts generalizing m with
  | nil => simp [run, h]
  | cons a rest ih =>
    have h1 := step_stays_closed m a h
    have h2 := ih (step m a) h1.1
    simp only [run, List.foldl_cons] at h2 ⊢
    exact ⟨h2.1, h2.2.trans h1.2⟩

/-! ## Intake -/

/-- C4: an onion tagged with the current round is appended at the end of `srv.onions`
(one element longer, the earlier elements untouched), `srv.round` and every other field
stay as they were, and nothing is sent. -/
theorem incomingOnion_current_round (srv : Server) (c : Conn) (o : OnionMsg)
    (h : o.Round = srv.round) :
    (incomingOnion srv c o).1 =
        { srv with onions := srv.onions ++ [{ sender := c, data := o.Onion }] } ∧
      (incomingOnion srv c o).1.onions.length = srv.onions.length + 1 ∧
      (incomingOnion srv c o).1.onions.take srv.onions.length = srv.onions ∧
      (incomingOnion srv c o).1.onions.getLast? = some { sender := c, data := o.Onion } ∧
      (incomingOnion srv c o).1.round = srv.round ∧
      (incomingOnion srv c o).2 = [] := by
  simp [incomingOnion, h]

/-- An instance of `incomingOnion_current_round`: round 3, one onion already waiting. -/
theorem incomingOnion_current_round_witness :
    (incomingOnion
        { Service := "Convo", MixWait := 5, RoundWait := 2, PersistPath := "state",
          ConfigServerPersistPath := "", round := 3, onions := [{ sender := 1, data := [9] }],
          closed := false, shutdown := some false, latestMixRound := none }
        8 { Round := 3, Onion := [4, 2] }).1.onions
      = [{ sender := 1, data := [9] }, { sender := 8, data := [4, 2] }] :=
  (incomingOnion_current_round
    { Service := "Convo", MixWait := 5, RoundWait := 2, PersistPath := "state",
      ConfigServerPersistPath := "", round := 3, onions := [{ sender := 1, data := [9] }],
      closed := false, shutdown := some false, latestMixRound := none }
    8 { Round := 3, Onion := [4, 2] } rfl).1 ▸ rfl

/-- C5: an onion tagged with another round leaves the server as it was and makes
exactly one send, an "error" notice to the submitting connection whose text names the
round read under the lock. -/
theorem incomingOnion_wrong_round (srv : Server) (c : Conn) (o : OnionMsg)
    (h : o.Round ≠ srv.round) :
    (incomingOnion srv c o).1 = srv ∧
      (incomingOnion srv c o).2 =
        [Event.send c "error" (Payload.roundError
          { Round := o.Round,
            Err := "wrong round (want " ++ toString srv.round ++ ")" })] := by
  simp [incomingOnion, h, wrongRoundText]

/-- An instance of `incomingOnion_wrong_round`: an onion for round 2 arrives in round 3. -/
theorem incomingOnion_wrong_round_witness :
    (incomingOnion
        { Service := "Convo", MixWait := 5, RoundWait := 2, PersistPath := "state",
          ConfigServerPersistPath := "", round := 3, onions := [{ sender := 1, data := [9] }],
          closed := false, shutdown := some false, latestMixRound := none }
        8 { Round := 2, Onion := [4, 2] }).2
      = [Event.send 8 "error"
          (Payload.roundError { Round := 2, Err := "wrong round (want 3)" })] :=
  (incomingOnion_wrong_round
    { Service := "Convo", MixWait := 5, RoundWait := 2, PersistPath := "state",
      ConfigServerPersistPath := "", round := 3, onions := [{ sender := 1, data := [9] }],
      closed := false, shutdown := some false, latestMixRound := none }
    8 { Round := 2, Onion := [4, 2] } (by decide)).2.trans (by decide)

/-! ## Shutdown -/

/-- C9, as stated, fails, in two ways.  On a server whose `Run` returned the persist-path
error (so that no shutdown channel was made) the first `Close` panics instead of returning
nil.  And a second `Run` resets `closed` and makes a new channel, so that in `Run`, `Close`,
`Run`, `Close` the later `Close` returns nil again, not `ErrServerClosed`. -/
theorem Close_panics_or_repeats :
    (Run unstarted).2 = some Error.noPersistPath ∧
      Close (Run unstarted).1 = Except.error Panic.closeOfNilChannel ∧
      (Run fresh).2 = none ∧
      Close (Run fresh).1 = Except.ok (stopped, none) ∧
      (Run stopped).2 = none ∧
      Close (Run stopped).1 = Except.ok (stopped, none) :=
  ⟨by decide, rfl, by decide, rfl, by decide, rfl⟩

/-- C9, amended: after a `Run` that returned nil and as long as `Run` is not called again,
whatever else happens in between, the first `Close` returns nil, sets `closed` and closes
the shutdown channel, changing nothing else; every later `Close`, after any further steps,
returns `ErrServerClosed` and leaves the server, and the whole process, as it is.  Each of
these calls returns: none panics, and none waits, since `Close` only takes the mutex, which
no step keeps, and closes a channel. -/
theorem Close_once (s : Server) (hs : s.PersistPath ≠ "") (before later : List Action)
    (hb : Action.close ∉ before) :
    (Run s).2 = none ∧
      Close (run (boot s) before).srv = Except.ok ((closedNow (run (boot s) before)).srv, none) ∧
      ((run (boot s) before).pc ≠ Phase.panicked →
        step (run (boot s) before) Action.close = closedNow (run (boot s) before)) ∧
      Close (run (closedNow (run (boot s) before)) later).srv =
        Except.ok ((run (closedNow (run (boot s) before)) later).srv,
          some Error.ErrServerClosed) ∧
      (run (closedNow (run (boot s) before)) later).srv.shutdown = some true ∧
      step (run (closedNow (run (boot s) before)) later) Action.close
        = run (closedNow (run (boot s) before)) later := by
  have h0 : (boot s).srv.closed = false ∧ (boot s).srv.shutdown = some false := by
    simp [boot, Run, hs]
  have h1 := run_keeps_shutdown before (boot s) hb
  have hc : (run (boot s) before).srv.closed = false := h1.1.trans h0.1
  have hsd : (run (boot s) before).srv.shutdown = some false := h1.2.trans h0.2
  have hclose : Close (run (boot s) before).srv =
      Except.ok ((closedNow (run (boot s) before)).srv, none) := by
    simp [Close, hc, hsd, closedNow]
  have h3 := run_stays_closed later (closedNow (run (boot s) before)) rfl
  have hlater : Close (run (closedNow (run (boot s) before)) later).srv =
      Except.ok ((run (closedNow (run (boot s) before)) later).srv,
        some Error.ErrServerClosed) := by
    simp [Close, h3.1]
  refine ⟨by simp [Run, hs], hclose, ?_, hlater, h3.2, ?_⟩
  · intro hp
    simp [step, hp, hclose, closedNow]
  · by_cases hq : (run (closedNow (run (boot s) before)) later).pc = Phase.panicked
    · exact step_panicked _ _ hq
    · simp [step, hq, hlater]

/-- An instance of `Close_once`: two submissions, then `Close`, a connect, `Close` again. -/
theorem Close_once_witness :
    Close (run (boot fresh) [Action.submit 1 { Round := 0, Onion := [7] }, Action.connect 2]).srv
        = Except.ok
            ((closedNow (run (boot fresh)
              [Action.submit 1 { Round := 0, Onion := [7] }, Action.connect 2])).srv, none) ∧
      Close (run (closedNow (run (boot fresh)
          [Action.submit 1 { Round := 0, Onion := [7] }, Action.connect 2]))
          [Action.connect 3, Action.close]).srv
        = Except.ok ((run (closedNow (run (boot fresh)
            [Action.submit 1 { Round := 0, Onion := [7] }, Action.connect 2]))
            [Action.connect 3, Action.close]).srv, some Error.ErrServerClosed) :=
  ⟨(Close_once fresh (by decide)
      [Action.submit 1 { Round := 0, Onion := [7] }, Action.connect 2]
      [Action.connect 3, Action.close] (by decide)).2.1,
   (Close_once fresh (by decide)
      [Action.submit 1 { Round := 0, Onion := [7] }, Action.connect 2]
      [Action.connect 3, Action.close] (by decide)).2.2.2.1⟩

/-! ## The round counter -/

/-- C7, as stated, fails: from the largest `uint32` the increment at the head of the loop
wraps `srv.round` to 0, a smaller value and one that was used before. -/
theorem round_wraps :
    (loopStep quietOracle (boot { fresh with round := 4294967295 })).srv.round = 0 ∧
      (boot { fresh with round := 4294967295 }).srv.round = 4294967295 := by
  decide

/-- C7, amended: from every value of `srv.round` below the largest `uint32`, a step of the
driver loop leaves the counter where it is or adds exactly one, so it never decreases;
the same holds for every other step of the process. -/
theorem round_monotone (m : Machine) (x : Oracle) (a : Action) (h : m.srv.round < U32 - 1) :
    m.srv.round ≤ (loopStep x m).srv.round ∧
      ((loopStep x m).srv.round = m.srv.round ∨ (loopStep x m).srv.round = m.srv.round + 1) ∧
      (m.pc = Phase.top → (loopStep x m).srv.round = m.srv.round + 1) ∧
      (m.pc ≠ Phase.top → (loopStep x m).srv.round = m.srv.round) ∧
      m.srv.round ≤ (step m a).srv.round := by
  have hmod : (m.srv.round + 1) % U32 = m.srv.round + 1 := by
    unfold U32 at *
    omega
  have hloop : ∀ y : Oracle, (m.pc = Phase.top → (loopStep y m).srv.round = m.srv.round + 1) ∧
      (m.pc ≠ Phase.top → (loopStep y m).srv.round = m.srv.round) := by
    intro y
    constructor
    · intro hp
      simp only [loopStep, hp]
      split <;> simp [hmod]
    · intro hp
      unfold loopStep
      split <;> (try split) <;> simp_all [afterSleep_srv]
  have hle : ∀ y : Oracle, m.srv.round ≤ (loopStep y m).srv.round := by
    intro y
    by_cases hp : m.pc = Phase.top
    · rw [(hloop y).1 hp]; omega
    · rw [(hloop y).2 hp]
  refine ⟨hle x, ?_, (hloop x).1, (hloop x).2, ?_⟩
  · by_cases hp : m.pc = Phase.top
    · exact Or.inr ((hloop x).1 hp)
    · exact Or.inl ((hloop x).2 hp)
  · by_cases hq : m.pc = Phase.panicked
    · simp [step, hq]
    · cases a with
      | submit c o =>
        simp only [step, hq, if_false, incomingOnion]
        split <;> simp
      | connect c => simp [step, hq]
      | close => rw [(step_close_keeps m).1]
      | loop y =>
        rw [step_loop]
        exact hle y

/-- An instance of `round_monotone`: the first increment after `Run`, from 0 to 1. -/
theorem round_monotone_witness :
    (boot fresh).srv.round < U32 - 1 ∧
      (loopStep quietOracle (boot fresh)).srv.round = (boot fresh).srv.round + 1 :=
  ⟨by decide,
   (round_monotone (boot fresh) quietOracle Action.close (by decide)).2.2.1 rfl⟩


/-! ## Projections of the trace -/

theorem spawned_append (l₁ l₂ : List Event) : spawned (l₁ ++ l₂) = spawned l₁ ++ spawned l₂ := by
  induction l₁ with
  | nil => rfl
  | cons e rest ih => cases e <;> simp [spawned, ih]

theorem broadcasts_append (l₁ l₂ : List Event) :
    broadcasts (l₁ ++ l₂) = broadcasts l₁ ++ broadcasts l₂ := by
  induction l₁ with
  | nil => rfl
  | cons e rest ih => cases e <;> simp [broadcasts, ih]

theorem incomingOnion_quiet (s : Server) (c : Conn) (o : OnionMsg) :
    spawned (incomingOnion s c o).2 = [] ∧ broadcasts (incomingOnion s c o).2 = [] := by
  unfold incomingOnion
  by_cases h : o.Round = s.round <;> simp [h, spawned, broadcasts]

theorem onConnect_quiet (s : Server) (c : Conn) :
    spawned (onConnect s c) = [] ∧ broadcasts (onConnect s c) = [] := by
  unfold onConnect
  split <;> simp [spawned, broadcasts]

/-- Once the loop has ended, no step broadcasts or hands a batch to `runRound`. -/
theorem step_after_end (m : Machine) (a : Action)
    (h : m.pc = Phase.done ∨ m.pc = Phase.panicked) :
    ((step m a).pc = Phase.done ∨ (step m a).pc = Phase.panicked) ∧
      broadcasts (step m a).trace = broadcasts m.trace ∧
      spawned (step m a).trace = spawned m.trace := by
  rcases h with h | h
  · have hq : m.pc ≠ Phase.panicked := by simp [h]
    cases a with
    | submit c o =>
      simp [step, h, broadcasts_append, spawned_append, incomingOnion_quiet]
    | connect c =>
      simp [step, h, broadcasts_append, spawned_append, onConnect_quiet]
    | close =>
      refine ⟨?_, by rw [(step_close_keeps m).2.2.1], by rw [(step_close_keeps m).2.2.1]⟩
      simp only [step, hq, if_false]
      split <;> simp [h]
    | loop x =>
      rw [step_loop]
      simp [loopStep, h]
  · rw [step_panicked m a h]
    exact ⟨Or.inr h, rfl, rfl⟩

theorem run_after_end (acts : List Action) (m : Machine)
    (h : m.pc = Phase.done ∨ m.pc = Phase.panicked) :
    ((run m acts).pc = Phase.done ∨ (run m acts).pc = Phase.panicked) ∧
      broadcasts (run m acts).trace = broadcasts m.trace ∧
      spawned (run m acts).trace = spawned m.trace := by
  induction acts generalizing m with
  | nil => exact ⟨h, rfl, rfl⟩
  | cons a rest ih =>
    have h1 := step_after_end m a h
    have h2 := ih (step m a) h1.1
    simp only [run, List.foldl_cons] at h2 ⊢
    exact ⟨h2.1, h2.2.1.trans h1.2.1, h2.2.2.trans h1.2.2⟩

/-! ## Persistence failure -/

/-- C8: when `persistLocked` returns an error, that step of the loop ends the loop: it
broadcasts nothing, hands no batch to `runRound` and leaves `srv.onions` alone; further
turns of the loop goroutine do nothing at all, and whatever else happens afterwards adds
no broadcast ("newround", "mix" or other) and no hand-off to the trace. -/
theorem persist_failure_halts (m : Machine) (x : Oracle) (turns : List Oracle)
    (later : List Action) (hpc : m.pc = Phase.top) (hx : x.persistErr = true) :
    (loopStep x m).pc = Phase.done ∧
      (loopStep x m).trace = m.trace ∧
      (loopStep x m).srv.onions = m.srv.onions ∧
      run (loopStep x m) (turns.map Action.loop) = loopStep x m ∧
      broadcasts (run (loopStep x m) later).trace = broadcasts m.trace ∧
      spawned (run (loopStep x m) later).trace = spawned m.trace := by
  have h1 : (loopStep x m).pc = Phase.done := by simp [loopStep, hpc, hx]
  have h2 : (loopStep x m).trace = m.trace := by simp [loopStep, hpc, hx]
  have h3 := run_after_end later (loopStep x m) (Or.inl h1)
  refine ⟨h1, h2, by simp [loopStep, hpc, hx], ?_, ?_, ?_⟩
  · generalize loopStep x m = m1 at h1
    induction turns with
    | nil => rfl
    | cons y rest ih =>
      have : step m1 (Action.loop y) = m1 := by
        rw [step_loop]; simp [loopStep, h1]
      simpa [run, this] using ih
  · rw [h3.2.1, h2]
  · rw [h3.2.2, h2]

/-- An instance of `persist_failure_halts`: persistence fails in the first round after `Run`;
the loop goroutine is polled again, an onion arrives and a client connects. -/
theorem persist_failure_halts_witness :
    (boot fresh).pc = Phase.top ∧
      (loopStep { quietOracle with persistErr := true } (boot fresh)).pc = Phase.done ∧
      broadcasts (run (loopStep { quietOracle with persistErr := true } (boot fresh))
        [Action.loop quietOracle, Action.submit 4 { Round := 0, Onion := [1] },
          Action.connect 5, Action.loop quietOracle]).trace = [] :=
  ⟨rfl,
   (persist_failure_halts (boot fresh) { quietOracle with persistErr := true } [quietOracle]
      [Action.loop quietOracle, Action.submit 4 { Round := 0, Onion := [1] },
        Action.connect 5, Action.loop quietOracle] rfl rfl).1,
   (persist_failure_halts (boot fresh) { quietOracle with persistErr := true } [quietOracle]
      [Action.loop quietOracle, Action.submit 4 { Round := 0, Onion := [1] },
        Action.connect 5, Action.loop quietOracle] rfl rfl).2.2.2.2.1⟩


/-! ## Reply dispatch -/

theorem pickOrder_perm (picks rest : List Nat) : (pickOrder picks rest).Perm rest := by
  induction picks generalizing rest with
  | nil => simp [pickOrder]
  | cons p ps ih =>
    unfold pickOrder
    split
    · exact List.Perm.refl _
    · rename_i i tl hd
      have h1 : rest = rest.take (p % rest.length) ++ i :: tl := by
        rw [← hd, List.take_append_drop]
      have h2 : (rest.drop (p % rest.length)).tail = tl := by rw [hd]; rfl
      rw [h2]
      refine (List.Perm.cons i (ih _)).trans ?_
      conv_rhs => rw [h1]
      exact List.perm_middle.symm

theorem runBodies_ok (body : Nat → Except Panic (List Event)) (ev : Nat → Event) (l : List Nat)
    (h : ∀ i ∈ l, body i = Except.ok [ev i]) : runBodies body l = Except.ok (l.map ev) := by
  induction l with
  | nil => rfl
  | cons i rest ih =>
    have hi := h i (by simp)
    have hr := ih (fun j hj => h j (by simp [hj]))
    simp [runBodies, hi, hr]

theorem sendReply_ok (out : List onion) (replies : List Bytes) (round i : Nat)
    (h : replies.length = out.length) (hi : i < out.length) :
    sendReply (out.map (fun o => o.sender)) replies round i
      = Except.ok [replyEvent out replies round i] := by
  have h1 : i < (out.map (fun o => o.sender)).length := by simpa using hi
  have h2 : i < replies.length := by omega
  simp [sendReply, replyEvent, List.getElem?_eq_getElem, h1, h2, hi]

theorem replyEvents_eq (out : List onion) (replies : List Bytes) (round : Nat)
    (h : replies.length = out.length) :
    (List.range out.length).map (replyEvent out replies round)
      = List.zipWith (fun o r => Event.send o.sender "reply"
          (Payload.onionMsg { Round := round, Onion := r })) out replies := by
  apply List.ext_getElem
  · simp [h]
  · intro i h1 h2
    simp at h1
    have h3 : i < replies.length := by omega
    simp [replyEvent, h1, h3]


theorem countP_sentTo_zipWith (c : Conn) (round : Nat) (out : List onion) (replies : List Bytes)
    (h : replies.length = out.length) :
    (List.zipWith (fun o r => Event.send o.sender "reply"
        (Payload.onionMsg { Round := round, Onion := r })) out replies).countP (sentTo c)
      = out.countP (fun o => o.sender = c) := by
  induction out generalizing replies with
  | nil => simp
  | cons o rest ih =>
    cases replies with
    | nil => simp at h
    | cons r rs =>
      have hr : rs.length = rest.length := by simpa using h
      simp only [List.zipWith_cons_cons, List.countP_cons, ih rs hr, sentTo]

/-- C3: when `RunRound` succeeds with as many replies as the batch has submissions,
`runRound` ends normally (no index out of range) and, after the call to the mix chain,
sends exactly the messages "reply" `OnionMsg{round, replies[i]}` to `out[i].sender`, one
for each position `i`, in some order: every connection gets as many replies as it has
positions in the batch, other connections get none, and an empty batch gives no send. -/
theorem runRound_positional (srv : Server) (picks : List Nat) (firstServer round : Nat)
    (out : List onion) (replies : List Bytes) (h : replies.length = out.length) :
    ∃ sends : List Event,
      runRound srv (some replies) picks firstServer round out
        = Except.ok (Event.runRoundCall firstServer srv.Service round
            (out.map (fun o => o.data)) :: sends) ∧
      sends.Perm (List.zipWith (fun o r => Event.send o.sender "reply"
          (Payload.onionMsg { Round := round, Onion := r })) out replies) ∧
      sends.length = out.length ∧
      (∀ c : Conn, sends.countP (sentTo c) = out.countP (fun o => o.sender = c)) ∧
      (out = [] → sends = []) := by
  refine ⟨(pickOrder picks (List.range replies.length)).map (replyEvent out replies round),
    ?_, ?_, ?_, ?_, ?_⟩
  · have hb : runBodies (sendReply (out.map (fun o => o.sender)) replies round)
        (pickOrder picks (List.range replies.length))
        = Except.ok ((pickOrder picks (List.range replies.length)).map
            (replyEvent out replies round)) := by
      apply runBodies_ok
      intro i hi
      have hi2 : i ∈ List.range replies.length := (pickOrder_perm _ _).mem_iff.mp hi
      exact sendReply_ok out replies round i h (by simpa [h] using hi2)
    simp [runRound, ParallelFor, hb]
  · rw [← replyEvents_eq out replies round h, ← h]
    exact (pickOrder_perm _ _).map _
  · rw [List.length_map, (pickOrder_perm picks (List.range replies.length)).length_eq,
      List.length_range, h]
  · intro c
    rw [← countP_sentTo_zipWith c round out replies h, ← replyEvents_eq out replies round h, ← h]
    exact ((pickOrder_perm _ _).map _).countP_eq _
  · intro ho
    subst ho
    have : replies.length = 0 := by simpa using h
    have hp := (pickOrder_perm picks (List.range replies.length)).length_eq
    rw [this] at hp ⊢
    simp at hp
    simp [hp]

/-- An instance of `runRound_positional`: three submissions, two of them from connection 5,
dispatched in the order 2, 0, 1. -/
theorem runRound_positional_witness :
    runRound fresh (some [[10], [11], [12]]) [2, 0] 40 7
        [{ sender := 5, data := [1] }, { sender := 6, data := [2] }, { sender := 5, data := [3] }]
      = Except.ok
          [Event.runRoundCall 40 "Convo" 7 [[1], [2], [3]],
           Event.send 5 "reply" (Payload.onionMsg { Round := 7, Onion := [12] }),
           Event.send 5 "reply" (Payload.onionMsg { Round := 7, Onion := [10] }),
           Event.send 6 "reply" (Payload.onionMsg { Round := 7, Onion := [11] })] ∧
      ∃ sends : List Event,
        runRound fresh (some [[10], [11], [12]]) [2, 0] 40 7
            [{ sender := 5, data := [1] }, { sender := 6, data := [2] },
              { sender := 5, data := [3] }]
          = Except.ok (Event.runRoundCall 40 "Convo" 7 [[1], [2], [3]] :: sends) ∧
        sends.length = 3 :=
  ⟨rfl,
   (runRound_positional fresh [2, 0] 40 7
      [{ sender := 5, data := [1] }, { sender := 6, data := [2] }, { sender := 5, data := [3] }]
      [[10], [11], [12]] rfl).imp (fun _ hs => ⟨hs.1, hs.2.2.1⟩)⟩

/-! ## One step, seen through the histories -/

/-- What a single step does to the counter, the batch and the hand-offs, given that the
loop, when inside an iteration, holds the value of `srv.round` in `round`. -/
theorem step_facts (e : Nat) (m : Machine) (a : Action)
    (hl : inRound m.pc = true → m.loc.round = m.srv.round) :
    (step m a).srv.round = (if bumps m a = 0 then m.srv.round else (m.srv.round + 1) % U32) ∧
      bumps m a ≤ 1 ∧
      (inRound (step m a).pc = true → (step m a).loc.round = (step m a).srv.round) ∧
      (∀ x ∈ acceptedAt e m a, x.tag = m.srv.round ∧ x.epoch = e) ∧
      (∀ d ∈ drainedAt e m a, d.round = m.srv.round ∧ d.epoch = e) ∧
      m.srv.onions ++ (acceptedAt e m a).map (fun x => x.item)
        = ((drainedAt e m a).map (fun d => d.batch)).flatten ++ (step m a).srv.onions ∧
      spawned (step m a).trace
        = spawned m.trace ++ (drainedAt e m a).map (fun d => (d.round, d.batch)) := by
  obtain ⟨srv, pc, loc, trace⟩ := m
  simp only at hl
  by_cases hq : pc = Phase.panicked
  · subst hq
    cases a <;> simp [step, bumps, acceptedAt, drainedAt, spawned, inRound]
  · cases a with
    | submit c o =>
      by_cases ho : o.Round = srv.round
      · simpa [step, hq, bumps, acceptedAt, drainedAt, spawned, spawned_append, incomingOnion, ho]
          using hl
      · simpa [step, hq, bumps, acceptedAt, drainedAt, spawned, spawned_append, incomingOnion, ho]
          using hl
    | connect c =>
      have hc := onConnect_quiet srv c
      simpa [step, hq, bumps, acceptedAt, drainedAt, spawned, spawned_append, hc.1] using hl
    | close =>
      cases hcl : Close srv with
      | error p =>
        simp [step, hq, bumps, acceptedAt, drainedAt, spawned, hcl, inRound]
      | ok r =>
        rcases Close_ok srv r hcl with h | h <;>
          simpa [step, hq, bumps, acceptedAt, drainedAt, spawned, hcl, h] using hl
    | loop x =>
      have hne := succ_mod_ne srv.round
      cases pc with
      | top =>
        by_cases hp : x.persistErr = true <;>
          simp [step, loopStep, bumps, acceptedAt, drainedAt, spawned, inRound, hp, hne]
      | announce =>
        simpa [step, loopStep, bumps, acceptedAt, drainedAt, spawned, spawned_append, inRound]
          using hl
      | delay =>
        by_cases ht : x.timerFired = true <;>
          simpa [step, loopStep, bumps, acceptedAt, drainedAt, spawned, inRound, ht] using hl
      | negotiate =>
        cases hn : x.newRoundResult <;>
          simpa [step, loopStep, bumps, acceptedAt, drainedAt, spawned, spawned_append, inRound, hn]
            using hl
      | backoff =>
        cases hs : sleep srv.shutdown x.timerFired x.pickShutdown with
        | none =>
          simpa [step, loopStep, afterSleep, bumps, acceptedAt, drainedAt, spawned, inRound, hs]
            using hl
        | some b =>
          cases b <;>
            simp [step, loopStep, afterSleep, bumps, acceptedAt, drainedAt, spawned, inRound, hs]
      | store =>
        simpa [step, loopStep, bumps, acceptedAt, drainedAt, spawned, inRound] using hl
      | announceMix =>
        simpa [step, loopStep, bumps, acceptedAt, drainedAt, spawned, spawned_append, inRound]
          using hl
      | mixWindow =>
        cases hs : sleep srv.shutdown x.timerFired x.pickShutdown with
        | none =>
          simpa [step, loopStep, afterSleep, bumps, acceptedAt, drainedAt, spawned, inRound, hs]
            using hl
        | some b =>
          cases b
          · simp [step, loopStep, afterSleep, bumps, acceptedAt, drainedAt, spawned, inRound, hs]
          · simpa [step, loopStep, afterSleep, bumps, acceptedAt, drainedAt, spawned, inRound, hs]
              using hl
      | drain =>
        have hl2 : loc.round = srv.round := hl rfl
        cases hm : loc.mixServers with
        | nil =>
          simp [step, loopStep, bumps, acceptedAt, drainedAt, spawned, inRound, hm]
        | cons first others =>
          simp [step, loopStep, bumps, acceptedAt, drainedAt, spawned, spawned_append, inRound,
            hm, hl2]
      | roundWait =>
        cases hs : sleep srv.shutdown x.timerFired x.pickShutdown with
        | none =>
          simpa [step, loopStep, afterSleep, bumps, acceptedAt, drainedAt, spawned, inRound, hs]
            using hl
        | some b =>
          cases b <;>
            simp [step, loopStep, afterSleep, bumps, acceptedAt, drainedAt, spawned, inRound, hs]
      | done =>
        simp [step, loopStep, bumps, acceptedAt, drainedAt, spawned, inRound]
      | panicked => exact absurd rfl hq

/-- A step either hands nothing over, and then `srv.onions` grows by what the step
accepted, or it hands over the whole of `srv.onions` under the current round number,
accepts nothing and leaves `srv.onions` empty. -/
theorem step_handoff (e : Nat) (m : Machine) (a : Action)
    (hl : inRound m.pc = true → m.loc.round = m.srv.round) :
    (drainedAt e m a = [] ∧
        (step m a).srv.onions = m.srv.onions ++ (acceptedAt e m a).map (fun x => x.item)) ∨
      (drainedAt e m a = [{ epoch := e, round := m.srv.round, batch := m.srv.onions }] ∧
        acceptedAt e m a = [] ∧ (step m a).srv.onions = []) := by
  obtain ⟨srv, pc, loc, trace⟩ := m
  simp only at hl
  by_cases hq : pc = Phase.panicked
  · subst hq
    cases a <;> simp [step, bumps, acceptedAt, drainedAt, spawned, inRound]
  · cases a with
    | submit c o =>
      by_cases ho : o.Round = srv.round
      · simp [step, hq, bumps, acceptedAt, drainedAt, spawned, spawned_append, incomingOnion, ho]
      · simp [step, hq, bumps, acceptedAt, drainedAt, spawned, spawned_append, incomingOnion, ho]
    | connect c =>
      have hc := onConnect_quiet srv c
      simp [step, hq, bumps, acceptedAt, drainedAt, spawned, spawned_append, hc.1]
    | close =>
      cases hcl : Close srv with
      | error p =>
        simp [step, hq, bumps, acceptedAt, drainedAt, spawned, hcl, inRound]
      | ok r =>
        rcases Close_ok srv r hcl with h | h <;>
          simp [step, hq, bumps, acceptedAt, drainedAt, spawned, hcl, h]
    | loop x =>
      have hne := succ_mod_ne srv.round
      cases pc with
      | top =>
        by_cases hp : x.persistErr = true <;>
          simp [step, loopStep, bumps, acceptedAt, drainedAt, spawned, inRound, hp, hne]
      | announce =>
        simp [step, loopStep, bumps, acceptedAt, drainedAt, spawned, spawned_append, inRound]
      | delay =>
        by_cases ht : x.timerFired = true <;>
          simp [step, loopStep, bumps, acceptedAt, drainedAt, spawned, inRound, ht]
      | negotiate =>
        cases hn : x.newRoundResult <;>
          simp [step, loopStep, bumps, acceptedAt, drainedAt, spawned, spawned_append, inRound, hn]
      | backoff =>
        cases hs : sleep srv.shutdown x.timerFired x.pickShutdown with
        | none =>
          simp [step, loopStep, afterSleep, bumps, acceptedAt, drainedAt, spawned, inRound, hs]
        | some b =>
          cases b <;>
            simp [step, loopStep, afterSleep, bumps, acceptedAt, drainedAt, spawned, inRound, hs]
      | store =>
        simp [step, loopStep, bumps, acceptedAt, drainedAt, spawned, inRound]
      | announceMix =>
        simp [step, loopStep, bumps, acceptedAt, drainedAt, spawned, spawned_append, inRound]
      | mixWindow =>
        cases hs : sleep srv.shutdown x.timerFired x.pickShutdown with
        | none =>
          simp [step, loopStep, afterSleep, bumps, acceptedAt, drainedAt, spawned, inRound, hs]
        | some b =>
          cases b
          · simp [step, loopStep, afterSleep, bumps, acceptedAt, drainedAt, spawned, inRound, hs]
          · simp [step, loopStep, afterSleep, bumps, acceptedAt, drainedAt, spawned, inRound, hs]
      | drain =>
        have hl2 : loc.round = srv.round := hl rfl
        cases hm : loc.mixServers with
        | nil =>
          simp [step, loopStep, bumps, acceptedAt, drainedAt, spawned, inRound, hm]
        | cons first others =>
          simp [step, loopStep, bumps, acceptedAt, drainedAt, spawned, spawned_append, inRound,
            hm, hl2]
      | roundWait =>
        cases hs : sleep srv.shutdown x.timerFired x.pickShutdown with
        | none =>
          simp [step, loopStep, afterSleep, bumps, acceptedAt, drainedAt, spawned, inRound, hs]
        | some b =>
          cases b <;>
            simp [step, loopStep, afterSleep, bumps, acceptedAt, drainedAt, spawned, inRound, hs]
      | done =>
        simp [step, loopStep, bumps, acceptedAt, drainedAt, spawned, inRound]
      | panicked => exact absurd rfl hq

/-! ## Whole executions -/

theorem run_cons (m : Machine) (a : Action) (rest : List Action) :
    run m (a :: rest) = run (step m a) rest := rfl

theorem run_append (m : Machine) (l₁ l₂ : List Action) :
    run m (l₁ ++ l₂) = run (run m l₁) l₂ := by
  simp [run, List.foldl_append]

theorem mod_step (r0 e b : Nat) (hb : b ≤ 1) :
    (if b = 0 then (r0 + e) % U32 else ((r0 + e) % U32 + 1) % U32) = (r0 + (e + b)) % U32 := by
  unfold U32
  split <;> omega

/-- Along an execution that starts with `srv.round` equal to `r0` advanced `e` times:
the counter is `r0` advanced by the number of changes so far, every accepted submission
carries the round number of its epoch as tag, every hand-off carries the round number of
its epoch as argument, the batch and the accepted submissions add up to the hand-offs and
the batch at the end, and the trace records exactly the hand-offs. -/
theorem run_facts (r0 : Nat) (acts : List Action) (e : Nat) (m : Machine)
    (hr : m.srv.round = (r0 + e) % U32)
    (hl : inRound m.pc = true → m.loc.round = m.srv.round) :
    (run m acts).srv.round = (r0 + (e + epochs m acts)) % U32 ∧
      (inRound (run m acts).pc = true → (run m acts).loc.round = (run m acts).srv.round) ∧
      (∀ x ∈ acceptedLog e m acts, x.tag = (r0 + x.epoch) % U32) ∧
      (∀ d ∈ drainLog e m acts, d.round = (r0 + d.epoch) % U32) ∧
      m.srv.onions ++ (acceptedLog e m acts).map (fun x => x.item)
        = ((drainLog e m acts).map (fun d => d.batch)).flatten ++ (run m acts).srv.onions ∧
      spawned (run m acts).trace
        = spawned m.trace ++ (drainLog e m acts).map (fun d => (d.round, d.batch)) := by
  induction acts generalizing e m with
  | nil =>
    refine ⟨by simp [run, epochs, hr], by simpa [run] using hl, ?_, ?_, ?_, ?_⟩ <;>
      simp [run, acceptedLog, drainLog]
  | cons a rest ih =>
    obtain ⟨h1, hb, h2, h3, h4, h5, h6⟩ := step_facts e m a hl
    have hr1 : (step m a).srv.round = (r0 + (e + bumps m a)) % U32 := by
      rw [h1, hr]; exact mod_step r0 e (bumps m a) hb
    obtain ⟨k1, k2, k3, k4, k5, k6⟩ := ih (e + bumps m a) (step m a) hr1 h2
    refine ⟨?_, k2, ?_, ?_, ?_, ?_⟩
    · rw [run_cons, k1, epochs, Nat.add_assoc]
    · intro x hx
      simp only [acceptedLog, List.mem_append] at hx
      rcases hx with hx | hx
      · rw [(h3 x hx).1, (h3 x hx).2, hr]
      · exact k3 x hx
    · intro d hd
      simp only [drainLog, List.mem_append] at hd
      rcases hd with hd | hd
      · rw [(h4 d hd).1, (h4 d hd).2, hr]
      · exact k4 d hd
    · simp only [acceptedLog, drainLog, List.map_append, List.flatten_append, run_cons]
      rw [← List.append_assoc, h5, List.append_assoc, k5, List.append_assoc]
    · simp only [drainLog, List.map_append, run_cons]
      rw [k6, h6, List.append_assoc]

theorem boot_facts (s : Server) (hp : s.PersistPath ≠ "") :
    (boot s).srv.round = s.round ∧ (boot s).srv.onions = [] ∧ (boot s).trace = [] ∧
      (boot s).pc = Phase.top := by
  simp [boot, Run, hp]

/-- Along an execution that starts with `srv.round` equal to `r0` advanced `e` times and
with `srv.onions` holding the pending submissions: every hand-off passes exactly the
submissions accepted since the hand-off before it, under the round number of its epoch;
the submissions pending at the end are `srv.onions`; the trace records exactly these
hand-offs; and the accepted submissions are those of the hand-offs followed by the
pending ones. -/
theorem segments_facts (r0 : Nat) (acts : List Action) (e : Nat) (pend : List Accepted)
    (m : Machine) (hr : m.srv.round = (r0 + e) % U32)
    (hl : inRound m.pc = true → m.loc.round = m.srv.round)
    (hp : pend.map (fun x => x.item) = m.srv.onions)
    (hpe : ∀ x ∈ pend, x.tag = (r0 + x.epoch) % U32 ∧ x.epoch ≤ e) :
    (∀ p ∈ segments e pend m acts,
        p.1.batch = p.2.map (fun x => x.item) ∧
        p.1.round = (r0 + p.1.epoch) % U32 ∧
        ∀ x ∈ p.2, x.tag = (r0 + x.epoch) % U32 ∧ x.epoch ≤ p.1.epoch) ∧
      (pending e pend m acts).map (fun x => x.item) = (run m acts).srv.onions ∧
      spawned (run m acts).trace
        = spawned m.trace ++ (segments e pend m acts).map (fun p => (p.1.round, p.1.batch)) ∧
      pend ++ acceptedLog e m acts
        = ((segments e pend m acts).map (fun p => p.2)).flatten ++ pending e pend m acts := by
  induction acts generalizing e pend m with
  | nil => simp [segments, pending, run, acceptedLog, hp]
  | cons a rest ih =>
    obtain ⟨h1, hb, h2, h3, -, -, h6⟩ := step_facts e m a hl
    have hr1 : (step m a).srv.round = (r0 + (e + bumps m a)) % U32 := by
      rw [h1, hr]; exact mod_step r0 e (bumps m a) hb
    rcases step_handoff e m a hl with ⟨hd, ho⟩ | ⟨hd, ha, ho⟩
    · have hp1 : (pend ++ acceptedAt e m a).map (fun x => x.item) = (step m a).srv.onions := by
        rw [List.map_append, hp, ho]
      have hpe1 : ∀ x ∈ pend ++ acceptedAt e m a,
          x.tag = (r0 + x.epoch) % U32 ∧ x.epoch ≤ e + bumps m a := by
        intro x hx
        rcases List.mem_append.mp hx with hx | hx
        · exact ⟨(hpe x hx).1, Nat.le_trans (hpe x hx).2 (Nat.le_add_right _ _)⟩
        · obtain ⟨t1, t2⟩ := h3 x hx
          rw [t1, t2, hr]
          exact ⟨rfl, Nat.le_add_right _ _⟩
      obtain ⟨k1, k2, k3, k4⟩ := ih (e + bumps m a) (pend ++ acceptedAt e m a) (step m a)
        hr1 h2 hp1 hpe1
      have hseg : segments e pend m (a :: rest)
          = segments (e + bumps m a) (pend ++ acceptedAt e m a) (step m a) rest := by
        simp [segments, hd]
      have hpen : pending e pend m (a :: rest)
          = pending (e + bumps m a) (pend ++ acceptedAt e m a) (step m a) rest := by
        simp [pending, hd]
      rw [hseg, hpen, run_cons]
      refine ⟨k1, k2, ?_, ?_⟩
      · rw [k3, h6, hd]; simp
      · rw [← k4, acceptedLog, List.append_assoc]
    · have hp1 : ([] : List Accepted).map (fun x => x.item) = (step m a).srv.onions := by
        rw [ho]; rfl
      obtain ⟨k1, k2, k3, k4⟩ := ih (e + bumps m a) [] (step m a) hr1 h2 hp1
        (fun x hx => absurd hx (List.not_mem_nil x))
      have hseg : segments e pend m (a :: rest)
          = ({ epoch := e, round := m.srv.round, batch := m.srv.onions }, pend)
              :: segments (e + bumps m a) [] (step m a) rest := by
        simp [segments, hd, ha]
      have hpen : pending e pend m (a :: rest)
          = pending (e + bumps m a) [] (step m a) rest := by
        simp [pending, hd]
      rw [hseg, hpen, run_cons]
      refine ⟨?_, k2, ?_, ?_⟩
      · intro p hpm
        rcases List.mem_cons.mp hpm with hpm | hpm
        · subst hpm
          exact ⟨hp.symm, hr, hpe⟩
        · exact k1 p hpm
      · rw [k3, h6, hd]; simp
      · have k4b : acceptedLog (e + bumps m a) (step m a) rest
            = ((segments (e + bumps m a) [] (step m a) rest).map (fun p => p.2)).flatten
                ++ pending (e + bumps m a) [] (step m a) rest := by
          simpa using k4
        rw [acceptedLog, ha, List.nil_append, k4b]
        simp

/-! ## Round exclusivity -/

/-- C1, amended: in every execution started by `Run`, each batch handed to `runRound` is
exactly the list of the submissions accepted since the hand-off before it (since `Run` for
the first), in the order of acceptance, and `srv.onions` holds exactly those accepted
since the last hand-off: an accepted submission is in one drained batch at most, the first
one drained after its acceptance, and is never dropped or duplicated; the trace records
exactly these hand-offs.  A submission's tag is the round number in force when it was
accepted and the round argument of its batch is the round number in force at the hand-off:
the two agree when no round increment lies between acceptance and hand-off, and differ
when between one and 2^32 - 1 increments lie between them. -/
theorem round_exclusivity (s : Server) (acts : List Action) (hp : s.PersistPath ≠ "")
    (hr : s.round < U32) :
    (∀ p ∈ segments 0 [] (boot s) acts,
        p.1.batch = p.2.map (fun x => x.item) ∧
        p.1.round = (s.round + p.1.epoch) % U32 ∧
        ∀ x ∈ p.2, x.tag = (s.round + x.epoch) % U32 ∧ x.epoch ≤ p.1.epoch ∧
          (x.epoch = p.1.epoch → x.tag = p.1.round) ∧
          (x.epoch < p.1.epoch → p.1.epoch < x.epoch + U32 → x.tag ≠ p.1.round)) ∧
      (pending 0 [] (boot s) acts).map (fun x => x.item) = (run (boot s) acts).srv.onions ∧
      spawned (run (boot s) acts).trace
        = (segments 0 [] (boot s) acts).map (fun p => (p.1.round, p.1.batch)) ∧
      acceptedLog 0 (boot s) acts
        = ((segments 0 [] (boot s) acts).map (fun p => p.2)).flatten
            ++ pending 0 [] (boot s) acts := by
  obtain ⟨b1, b2, b3, b4⟩ := boot_facts s hp
  have hr0 : (boot s).srv.round = (s.round + 0) % U32 := by
    rw [b1, Nat.add_zero, Nat.mod_eq_of_lt hr]
  have hl0 : inRound (boot s).pc = true → (boot s).loc.round = (boot s).srv.round := by
    rw [b4]; intro h; cases h
  obtain ⟨k1, k2, k3, k4⟩ := segments_facts s.round acts 0 [] (boot s) hr0 hl0
    (by rw [b2]; rfl) (fun x hx => absurd hx (List.not_mem_nil x))
  rw [b3] at k3
  refine ⟨?_, k2, by simpa [spawned] using k3, by simpa using k4⟩
  intro p hpm
  obtain ⟨q1, q2, q3⟩ := k1 p hpm
  refine ⟨q1, q2, ?_⟩
  intro x hx
  obtain ⟨t1, t2⟩ := q3 x hx
  refine ⟨t1, t2, ?_, ?_⟩
  · intro he
    rw [t1, q2, he]
  · intro h1 h2
    rw [t1, q2]
    unfold U32 at *
    omega


/-- C1, as stated, fails: the onion of connection 6 is accepted with tag 1 after the batch of
round 1 was handed over, and it is drained in the batch passed to `runRound` with round
argument 2; no batch with round argument 1 holds it. -/
theorem late_onion_rides_next_round :
    acceptedLog 0 (boot fresh) lateOnion
        = [{ epoch := 1, tag := 1, item := { sender := 5, data := [1] } },
           { epoch := 1, tag := 1, item := { sender := 6, data := [2] } }] ∧
      spawned (run (boot fresh) lateOnion).trace
        = [(1, [{ sender := 5, data := [1] }]), (2, [{ sender := 6, data := [2] }])] := by
  decide

/-- An instance of `round_exclusivity`: the execution with the late onion has two
hand-offs, the second of which holds the onion accepted with tag 1 under round argument 2. -/
theorem round_exclusivity_witness :
    fresh.PersistPath ≠ "" ∧ fresh.round < U32 ∧
      segments 0 [] (boot fresh) lateOnion
        = [({ epoch := 1, round := 1, batch := [{ sender := 5, data := [1] }] },
            [{ epoch := 1, tag := 1, item := { sender := 5, data := [1] } }]),
           ({ epoch := 2, round := 2, batch := [{ sender := 6, data := [2] }] },
            [{ epoch := 1, tag := 1, item := { sender := 6, data := [2] } }])] ∧
      spawned (run (boot fresh) lateOnion).trace
        = (segments 0 [] (boot fresh) lateOnion).map (fun p => (p.1.round, p.1.batch)) :=
  ⟨by decide, by decide, by decide,
   (round_exclusivity fresh lateOnion (by decide) (by decide)).2.2.1⟩

/-- C2, as stated, fails: right after the batch of round 1 was handed to `runRound` and
replaced by an empty one, an onion tagged 1 is appended to `srv.onions` and no notice is
sent. -/
theorem accepted_after_drain :
    spawned (run (boot fresh) roundOne).trace = [(1, [{ sender := 5, data := [1] }])] ∧
      (run (boot fresh) roundOne).srv.onions = [] ∧
      (incomingOnion (run (boot fresh) roundOne).srv 6 { Round := 1, Onion := [2] }).1.onions
        = [{ sender := 6, data := [2] }] ∧
      (incomingOnion (run (boot fresh) roundOne).srv 6 { Round := 1, Onion := [2] }).2 = [] := by
  decide

/-- C10 fails on the code: shutdown is signalled while the loop sits in the wait after the
"newround" broadcast, yet the loop goes on to negotiate and to broadcast "mix". -/
theorem delay_ignores_shutdown :
    (run (boot fresh) (turns 2 ++ [Action.close])).pc = Phase.delay ∧
      (run (boot fresh) (turns 2 ++ [Action.close])).srv.shutdown = some true ∧
      (run (boot fresh) shutdownInDelay).pc = Phase.mixWindow ∧
      (run (boot fresh) shutdownInDelay).trace
        = [Event.broadcast "newround" (Payload.newRound { Round := 1, ConfigHash := "cfg" }),
           Event.newRoundCall [10, 11] { Service := "Convo", Round := 1 },
           Event.broadcast "mix" (Payload.mixRound
             { MixSettings := { Service := "Convo", Round := 1 },
               MixSignatures := [[1], [2]], EndTime := 105 })] := by
  decide

/-- C6, as stated, fails: negotiation fails once and then succeeds; the two "newround"
broadcasts carry 1 and 2, and so do the two `RoundSettings`. -/
theorem retry_takes_new_round :
    announcedRounds (run (boot fresh) (retries [failingOracle] ++ goodAttempt quietOracle)).trace
        = [1, 2] ∧
      negotiatedRounds (run (boot fresh) (retries [failingOracle] ++ goodAttempt quietOracle)).trace
        = [1, 2] ∧
      (run (boot fresh) (retries [failingOracle] ++ goodAttempt quietOracle)).srv.round = 2 := by
  decide


/-! ## After the hand-off -/

/-- C2, amended: once the loop has handed the batch of round R to `runRound` and has then
incremented `srv.round` at least once and fewer than 2^32 times, an `incomingOnion` with
tag R leaves the server as it is and sends the wrong-round notice to the submitting
connection.  (Between the hand-off and the next increment the tag still equals
`srv.round`.) -/
theorem stale_after_increment (s : Server) (before after : List Action) (x : Oracle)
    (first : Nat) (others : List Nat) (c : Conn) (o : OnionMsg)
    (hp : s.PersistPath ≠ "") (hr : s.round < U32)
    (hpc : (run (boot s) before).pc = Phase.drain)
    (hms : (run (boot s) before).loc.mixServers = first :: others)
    (ho : o.Round = (run (boot s) before).loc.round)
    (h1 : 0 < epochs (loopStep x (run (boot s) before)) after)
    (h2 : epochs (loopStep x (run (boot s) before)) after < U32) :
    (loopStep x (run (boot s) before)).trace
        = (run (boot s) before).trace
            ++ [Event.goRunRound first o.Round (run (boot s) before).srv.onions] ∧
      (loopStep x (run (boot s) before)).srv.onions = [] ∧
      (incomingOnion (run (loopStep x (run (boot s) before)) after).srv c o).1
        = (run (loopStep x (run (boot s) before)) after).srv ∧
      (incomingOnion (run (loopStep x (run (boot s) before)) after).srv c o).2
        = [Event.send c "error" (Payload.roundError
            { Round := o.Round,
              Err := wrongRoundText (run (loopStep x (run (boot s) before)) after).srv.round })] := by
  obtain ⟨b1, -, -, b4⟩ := boot_facts s hp
  have hr0 : (boot s).srv.round = (s.round + 0) % U32 := by
    rw [b1, Nat.add_zero, Nat.mod_eq_of_lt hr]
  have hl0 : inRound (boot s).pc = true → (boot s).loc.round = (boot s).srv.round := by
    rw [b4]; intro h; cases h
  obtain ⟨k1, k2, -⟩ := run_facts s.round before 0 (boot s) hr0 hl0
  generalize run (boot s) before = m1 at *
  have hloc : m1.loc.round = m1.srv.round := k2 (by rw [hpc]; rfl)
  have hstep : loopStep x m1 =
      { m1 with
        trace := m1.trace ++ [Event.goRunRound first m1.loc.round m1.srv.onions],
        srv := { m1.srv with onions := [] },
        pc := Phase.roundWait } := by
    simp [loopStep, hpc, hms]
  have hr2 : (loopStep x m1).srv.round = (s.round + (0 + epochs (boot s) before)) % U32 := by
    rw [hstep]; exact k1
  have hl2 : inRound (loopStep x m1).pc = true →
      (loopStep x m1).loc.round = (loopStep x m1).srv.round := by
    rw [hstep]; intro _; exact hloc
  obtain ⟨j1, -⟩ := run_facts s.round after _ (loopStep x m1) hr2 hl2
  have hne : o.Round ≠ (run (loopStep x m1) after).srv.round := by
    rw [ho, hloc, k1, j1]
    unfold U32 at *
    omega
  refine ⟨by rw [hstep, ho], by rw [hstep], ?_, ?_⟩
  · simp [incomingOnion, hne]
  · simp [incomingOnion, hne]

/-- An instance of `stale_after_increment`: round 1 is handed over, the loop reaches round 2,
and an onion tagged 1 is turned away. -/
theorem stale_after_increment_witness :
    (run (boot fresh) (turns 6 ++ [Action.submit 5 { Round := 1, Onion := [1] }] ++ turns 1)).pc
        = Phase.drain ∧
      epochs (loopStep quietOracle
        (run (boot fresh) (turns 6 ++ [Action.submit 5 { Round := 1, Onion := [1] }] ++ turns 1)))
        (turns 3) = 1 ∧
      (incomingOnion (run (loopStep quietOracle
        (run (boot fresh) (turns 6 ++ [Action.submit 5 { Round := 1, Onion := [1] }] ++ turns 1)))
        (turns 3)).srv 6 { Round := 1, Onion := [2] }).2
        = [Event.send 6 "error"
            (Payload.roundError { Round := 1, Err := "wrong round (want 2)" })] :=
  ⟨by decide, by decide,
   (stale_after_increment fresh
      (turns 6 ++ [Action.submit 5 { Round := 1, Onion := [1] }] ++ turns 1) (turns 3)
      quietOracle 10 [11] 6 { Round := 1, Onion := [2] }
      (by decide) (by decide) (by decide) (by decide) (by decide) (by decide)
      (by decide)).2.2.2.trans (by decide)⟩

/-! ## Cancellable waits -/

/-- The three waits made with `srv.sleep` (back-off, mix window, wait between rounds) end
the loop when shutdown is signalled and the timer has not fired; the trace and the server
are left alone. -/
theorem sleep_observes_shutdown (m : Machine) (x : Oracle)
    (hpc : m.pc = Phase.backoff ∨ m.pc = Phase.mixWindow ∨ m.pc = Phase.roundWait)
    (hs : m.srv.shutdown = some true) (ht : x.timerFired = false) :
    loopStep x m = { m with pc := Phase.done } := by
  rcases hpc with h | h | h <;> simp [loopStep, h, afterSleep, sleep, hs, ht]

/-- The wait after the "newround" broadcast never ends the loop, whatever the state of the
shutdown channel. -/
theorem delay_never_breaks (m : Machine) (x : Oracle) (hpc : m.pc = Phase.delay) :
    loopStep x m = m ∨ loopStep x m = { m with pc := Phase.negotiate } := by
  by_cases ht : x.timerFired = true <;> simp [loopStep, hpc, ht]


/-! ## Negotiation retries -/

theorem announcedRounds_append (l₁ l₂ : List Event) :
    announcedRounds (l₁ ++ l₂) = announcedRounds l₁ ++ announcedRounds l₂ := by
  induction l₁ with
  | nil => rfl
  | cons e rest ih =>
    cases e with
    | broadcast t v => cases v <;> simp [announcedRounds, ih]
    | _ => simp [announcedRounds, ih]

theorem negotiatedRounds_append (l₁ l₂ : List Event) :
    negotiatedRounds (l₁ ++ l₂) = negotiatedRounds l₁ ++ negotiatedRounds l₂ := by
  induction l₁ with
  | nil => rfl
  | cons e rest ih => cases e <;> simp [negotiatedRounds, ih]

theorem sleep_open (sd : Option Bool) (p : Bool) (h : sd ≠ some true) :
    sleep sd true p = some true := by
  cases sd with
  | none => rfl
  | some b => cases b <;> simp_all [sleep]

/-- An iteration whose negotiation fails, when nobody shuts the server down: the counter is
incremented, the round is announced and negotiated under the new number, and the loop is
back at its head. -/
theorem failedAttempt_run (m : Machine) (y : Oracle) (hpc : m.pc = Phase.top)
    (hsd : m.srv.shutdown ≠ some true) (hy : proceeds y) (hn : y.newRoundResult = none) :
    run m (failedAttempt y) =
      { m with
        srv := { m.srv with round := (m.srv.round + 1) % U32 },
        loc := { round := (m.srv.round + 1) % U32, configHash := y.configHash,
                 mixServers := y.mixServers, mixRound := m.loc.mixRound },
        trace := m.trace ++
          [Event.broadcast "newround"
             (Payload.newRound { Round := (m.srv.round + 1) % U32, ConfigHash := y.configHash }),
           Event.newRoundCall y.mixServers
             { Service := "Convo", Round := (m.srv.round + 1) % U32 }],
        pc := Phase.top } := by
  obtain ⟨srv, pc, loc, trace⟩ := m
  simp only at hpc hsd
  subst hpc
  simp [failedAttempt, attempt, run, step, loopStep, hy.1, hy.2, hn, afterSleep,
    sleep_open _ _ hsd]

/-- An iteration whose negotiation succeeds, up to the "mix" broadcast. -/
theorem goodAttempt_run (m : Machine) (x : Oracle) (sigs : List Bytes) (hpc : m.pc = Phase.top)
    (hx : proceeds x) (hn : x.newRoundResult = some sigs) :
    (run m (goodAttempt x)).trace = m.trace ++
          [Event.broadcast "newround"
             (Payload.newRound { Round := (m.srv.round + 1) % U32, ConfigHash := x.configHash }),
           Event.newRoundCall x.mixServers
             { Service := "Convo", Round := (m.srv.round + 1) % U32 },
           Event.broadcast "mix" (Payload.mixRound
             { MixSettings := { Service := "Convo", Round := (m.srv.round + 1) % U32 },
               MixSignatures := sigs, EndTime := x.now + m.srv.MixWait })] ∧
      (run m (goodAttempt x)).srv.round = (m.srv.round + 1) % U32 ∧
      (run m (goodAttempt x)).pc = Phase.mixWindow := by
  obtain ⟨srv, pc, loc, trace⟩ := m
  simp only at hpc
  subst hpc
  simp [goodAttempt, attempt, run, step, loopStep, hx.1, hx.2, hn]

theorem range_shift (r n : Nat) :
    (r + 1) % U32 :: (List.range n).map (fun i => ((r + 1) % U32 + 1 + i) % U32)
      = (List.range (n + 1)).map (fun i => (r + 1 + i) % U32) := by
  rw [List.range_succ_eq_map, List.map_cons, List.map_map]
  congr 1
  apply List.map_congr_left
  intro i _
  simp only [Function.comp]
  unfold U32
  omega

/-- C6, amended: when `NewRound` fails K times in a row and then succeeds, with no shutdown
and no persistence failure, `srv.round` is incremented once at the head of every one of
the K+1 iterations: attempt number i (from 0) is announced by "newround" and negotiated
with `RoundSettings` under the round number r+1+i (modulo 2^32), r being the counter
before the first attempt; the "mix" broadcast carries r+K+1.  Only within one attempt do
announcement and settings agree. -/
theorem retry_round_numbers (fails : List Oracle) (m : Machine) (x : Oracle) (sigs : List Bytes)
    (hpc : m.pc = Phase.top) (hsd : m.srv.shutdown ≠ some true)
    (hf : ∀ y ∈ fails, proceeds y ∧ y.newRoundResult = none)
    (hx : proceeds x) (hn : x.newRoundResult = some sigs) :
    announcedRounds (run m (retries fails ++ goodAttempt x)).trace
        = announcedRounds m.trace
            ++ (List.range (fails.length + 1)).map (fun i => (m.srv.round + 1 + i) % U32) ∧
      negotiatedRounds (run m (retries fails ++ goodAttempt x)).trace
        = negotiatedRounds m.trace
            ++ (List.range (fails.length + 1)).map (fun i => (m.srv.round + 1 + i) % U32) ∧
      (run m (retries fails ++ goodAttempt x)).srv.round
        = (m.srv.round + fails.length + 1) % U32 ∧
      (run m (retries fails ++ goodAttempt x)).trace.getLast?
        = some (Event.broadcast "mix" (Payload.mixRound
            { MixSettings := { Service := "Convo",
                               Round := (m.srv.round + fails.length + 1) % U32 },
              MixSignatures := sigs, EndTime := x.now + m.srv.MixWait })) := by
  induction fails generalizing m with
  | nil =>
    obtain ⟨g1, g2, -⟩ := goodAttempt_run m x sigs hpc hx hn
    simp [retries, g1, g2, announcedRounds_append, negotiatedRounds_append, announcedRounds,
      negotiatedRounds, List.range_succ]
  | cons y ys ih =>
    have hy := hf y (by simp)
    have hm := failedAttempt_run m y hpc hsd hy.1 hy.2
    have hys : ∀ z ∈ ys, proceeds z ∧ z.newRoundResult = none :=
      fun z hz => hf z (by simp [hz])
    have key := ih (run m (failedAttempt y)) (by rw [hm]) (by rw [hm]; exact hsd) hys
    rw [retries, List.append_assoc, run_append]
    obtain ⟨i1, i2, i3, i4⟩ := key
    refine ⟨?_, ?_, ?_, ?_⟩
    · rw [i1, hm]
      simp only [announcedRounds_append, announcedRounds, List.append_assoc, List.length_cons,
        List.singleton_append, List.nil_append]
      rw [range_shift]
    · rw [i2, hm]
      simp only [negotiatedRounds_append, negotiatedRounds, List.append_assoc, List.length_cons,
        List.singleton_append, List.nil_append]
      rw [range_shift]
    · rw [i3, hm]
      simp only [List.length_cons]
      unfold U32
      omega
    · rw [i4, hm]
      simp only [List.length_cons]
      have : ((m.srv.round + 1) % U32 + ys.length + 1) % U32
          = (m.srv.round + (ys.length + 1) + 1) % U32 := by
        unfold U32
        omega
      rw [this]

/-- An instance of `retry_round_numbers`: two failures, then a success, from round 0. -/
theorem retry_round_numbers_witness :
    (boot fresh).pc = Phase.top ∧ (boot fresh).srv.shutdown ≠ some true ∧
      announcedRounds
        (run (boot fresh) (retries [failingOracle, failingOracle] ++ goodAttempt quietOracle)).trace
        = [1, 2, 3] :=
  ⟨by decide, by decide,
   (retry_round_numbers [failingOracle, failingOracle] (boot fresh) quietOracle [[1], [2]]
      (by decide) (by decide) (by decide) (by decide) (by decide)).1.trans (by decide)⟩


end Coordinator
